import Mathlib

/-!
Verification development for cath (src/src/main.rs), a cat-like command-line
utility with syntax highlighting.

The wrapper in main.rs (argument handling, line-range selection, the two
plain/highlighted output branches, the fixed theme) is embedded directly from
the source.  The highlighting core (grammar registry, tokenizer, highlighter)
lives in an external library and is not part of src/; those components are
modelled from the specification (sections 3, 4.1, 4.3, 4.4 and 7) and every
such definition is marked "Modelled from the spec".
-/

/-- Command-line arguments of cath (struct Args, main.rs lines 18-40): a file
path, the plain-output flag, the line-number flag and optional 1-indexed start
and end lines. -/
structure Args where
  file_path : String
  plain : Bool
  line_numbers : Bool
  start_line : Option Nat
  end_line : Option Nat

/-- Largest value of the 64-bit usize type (usize::MAX), the default end bound
at main.rs line 75. -/
def USIZE_MAX : Nat := 2 ^ 64 - 1

/-- Release-profile value of the Rust expression start - 1 on usize: it wraps to
USIZE_MAX when start = 0 (a debug build panics there instead).  This is the
inner subtraction of end.saturating_sub(start - 1) at main.rs lines 85, 93,
107 and 121; note that it is a plain subtraction, not a saturating one. -/
def wrapSub1 (start : Nat) : Nat := if start = 0 then USIZE_MAX else start - 1

/-- Line selection shared by both un-numbered output branches (main.rs lines
91-93 and 119-121): skip start.saturating_sub(1) lines of the file, then take
end.saturating_sub(start - 1) lines, where start defaults to 1 and end to
usize::MAX (lines 74-75).  Truncated subtraction on Nat coincides with
saturating_sub on usize. -/
def selectedLines (content : List String) (startArg endArg : Option Nat) : List String :=
  let start := startArg.getD 1
  let stop := endArg.getD USIZE_MAX
  (content.drop (start - 1)).take (stop - wrapSub1 start)

/-- Line selection of the two numbered output branches (main.rs lines 82-85 and
104-107): the lines are enumerated before skip/take, so each kept pair carries
the line's original 0-based index; the printed prefix is that index plus one
(lines 87 and 109). -/
def numberedSelection (content : List String) (startArg endArg : Option Nat) :
    List (Nat × String) :=
  let start := startArg.getD 1
  let stop := endArg.getD USIZE_MAX
  ((content.enum).drop (start - 1)).take (stop - wrapSub1 start)

/-- Theme handed to the highlighter at main.rs line 61: the string literal
"base16-ocean.dark", independent of every parsed argument. -/
def chosenTheme (_args : Args) : String := "base16-ocean.dark"

/-- Modelled from the spec: section 9 — the three rule kinds (match in place,
push a nested context, pop the current context) as a tagged variant. -/
inductive RuleAction where
  | stay : RuleAction
  | push : Nat → RuleAction
  | pop : RuleAction
  deriving DecidableEq

/-- Modelled from the spec: section 4.3 — a grammar rule: a match pattern
(modelled as a literal character sequence), the scope name the rule assigns to
matched text, and its stack action. -/
structure Rule where
  pattern : List Char
  scope : String
  action : RuleAction
  deriving DecidableEq

/-- Modelled from the spec: sections 3 and 9 — a grammar is an arena of contexts
(ordered rule lists) addressed by integer index; index 0 is the root context. -/
structure Grammar where
  contexts : List (List Rule)
  deriving DecidableEq

/-- Modelled from the spec: section 4.3 — the parse state is a stack of context
indices carried between lines, top of stack first. -/
abbrev ParseState := List Nat

/-- Initial parse state: the single-element stack holding the root context
(spec section 4.3). -/
def initState : ParseState := [0]

/-- Modelled from the spec: section 3 — a token: a text slice of the line plus an
ordered scope path; the empty path marks unscoped text. -/
structure Token where
  text : List Char
  scope : List String
  deriving DecidableEq

/-- Rules of the context on top of the parse state stack; empty when the stack
has run empty or the index falls outside the arena. -/
def curContext (g : Grammar) : ParseState → List Rule
  | [] => []
  | i :: _ =>
    match g.contexts.get? i with
    | none => []
    | some ctx => ctx

/-- Modelled from the spec: section 4.3 step 1 — a rule matches at the current
position when its (nonempty) pattern starts the remaining text. -/
def ruleMatches (rem : List Char) (r : Rule) : Bool :=
  !r.pattern.isEmpty && r.pattern.isPrefixOf rem

/-- Modelled from the spec: section 4.3 step 2 — among the rules of a context
that match at the current position, the rule declared earliest wins. -/
def findRule (rules : List Rule) (rem : List Char) : Option Rule :=
  rules.find? (ruleMatches rem)

/-- Stack update of a fired rule (spec section 4.3 step 3). -/
def applyAction (st : ParseState) : RuleAction → ParseState
  | .stay => st
  | .push i => i :: st
  | .pop => st.tail

/-- Modelled from the spec: section 4.3 — the tokenizer loop over one line: at
each position the earliest matching rule of the top context fires, emitting a
token scoped with the rule's scope and updating the stack; when no rule matches
one character is emitted as an unscoped token (step 4).  Residual stack state is
returned for the next line (step 5).  Total: every step consumes at least one
character. -/
def tokenizeLine (g : Grammar) (st : ParseState) : List Char → List Token × ParseState
  | [] => ([], st)
  | c :: rest =>
    match findRule (curContext g st) (c :: rest) with
    | none =>
      let res := tokenizeLine g st rest
      (⟨[c], []⟩ :: res.1, res.2)
    | some r =>
      if _h : r.pattern.length = 0 then
        let res := tokenizeLine g st rest
        (⟨[c], []⟩ :: res.1, res.2)
      else
        let res := tokenizeLine g (applyAction st r.action) ((c :: rest).drop r.pattern.length)
        (⟨(c :: rest).take r.pattern.length, [r.scope]⟩ :: res.1, res.2)
  termination_by rem => rem.length
  decreasing_by
  all_goals simp [List.length_drop]
  all_goals omega

/-- Scope names declared by any rule of any context of the grammar. -/
def grammarScopes (g : Grammar) : List String :=
  (g.contexts.flatten).map Rule.scope

/-- Modelled from the spec: section 3 — a resolved style: foreground colour,
background colour and font-style flags. -/
structure Style where
  foreground : Nat
  background : Nat
  fontStyle : Nat
  deriving DecidableEq

/-- Modelled from the spec: sections 3 and 4.4 — a theme: an ordered list of
scope-selector rules, each mapping a selector to a style, plus the global
default style. -/
structure Theme where
  rules : List (List String × Style)
  defaultStyle : Style
  deriving DecidableEq

/-- Modelled from the spec: section 4.4 — specificity of a selector against a
scope path: a nonempty selector whose segments equal the trailing segments of
the path scores its segment count; anything else does not match. -/
def selectorScore (selector : List String) (path : List String) : Option Nat :=
  if !selector.isEmpty && selector.isSuffixOf path then some selector.length else none

/-- Modelled from the spec: section 4.4 — scope resolution: the highest-scoring
matching theme rule wins, with later rules overriding earlier ones on equal
scores; a path no rule matches receives the theme's default style. -/
def resolveStyle (th : Theme) (path : List String) : Style :=
  let best := th.rules.foldl
    (fun acc rule =>
      match selectorScore rule.1 path with
      | none => acc
      | some sc =>
        match acc with
        | none => some (sc, rule.2)
        | some b => if b.1 ≤ sc then some (sc, rule.2) else acc)
    none
  match best with
  | none => th.defaultStyle
  | some b => b.2

/-- Modelled from the spec: section 3 — a styled span: a resolved style together
with the text slice it covers. -/
abbrev StyledSpan := Style × List Char

/-- Modelled from the spec: section 4.4 — adjacent spans carrying an identical
resolved style are merged into a single span. -/
def mergeSpans : List StyledSpan → List StyledSpan
  | [] => []
  | [s] => [s]
  | a :: b :: rest =>
    if a.1 = b.1 then mergeSpans ((a.1, a.2 ++ b.2) :: rest)
    else a :: mergeSpans (b :: rest)
  termination_by l => l.length
  decreasing_by
  · simp
  · simp

/-- Modelled from the spec: section 4.4 — rendering of a token list: each token
takes the style resolved for its scope path, then adjacent identically styled
spans are merged. -/
def styledSpans (th : Theme) (toks : List Token) : List StyledSpan :=
  mergeSpans (toks.map fun t => (resolveStyle th t.scope, t.text))

/-- Highlighting of one line: tokenize with the carried state (spec section
4.3), resolve styles and merge (section 4.4); returns the spans together with
the state for the next line. -/
def highlightLineSpans (g : Grammar) (th : Theme) (st : ParseState) (line : List Char) :
    List StyledSpan × ParseState :=
  let res := tokenizeLine g st line
  (styledSpans th res.1, res.2)

/-- Modelled from the spec: section 7 — highlight_line as a fallible operation:
a ResolutionError is raised when a produced token references a scope unknown to
the grammar, and never otherwise. -/
def highlightLineChecked (g : Grammar) (th : Theme) (st : ParseState) (line : List Char) :
    Except String (List StyledSpan × ParseState) :=
  let res := tokenizeLine g st line
  if res.1.all (fun t => t.scope.all (fun s => (grammarScopes g).contains s)) then
    Except.ok (styledSpans th res.1, res.2)
  else
    Except.error "ResolutionError"

/-- Stateful highlighting of a list of lines, threading the parse state of each
line into the next, as the single HighlightLines value created at main.rs line
61 does across the highlight_line calls at lines 111 and 124. -/
def highlightAll (g : Grammar) (th : Theme) (st : ParseState) :
    List String → List (List StyledSpan)
  | [] => []
  | l :: rest =>
    let res := highlightLineSpans g th st l.data
    res.1 :: highlightAll g th res.2 rest

/-- Stateful highlighting of numbered lines (main.rs lines 104-116): the kept
original index travels with each line's spans. -/
def highlightAllNumbered (g : Grammar) (th : Theme) (st : ParseState) :
    List (Nat × String) → List (Nat × List StyledSpan)
  | [] => []
  | (n, l) :: rest =>
    let res := highlightLineSpans g th st l.data
    (n, res.1) :: highlightAllNumbered g th res.2 rest

/-- Output of the highlighted branch without line numbers (main.rs lines
119-129): the same skip/take selection as plain mode, each selected line
highlighted with the carried-over state. -/
def highlightedOutput (g : Grammar) (th : Theme) (content : List String)
    (startArg endArg : Option Nat) : List (List StyledSpan) :=
  highlightAll g th initState (selectedLines content startArg endArg)

/-- Output of the highlighted branch with line numbers (main.rs lines
104-116). -/
def highlightedNumberedOutput (g : Grammar) (th : Theme) (content : List String)
    (startArg endArg : Option Nat) : List (Nat × List StyledSpan) :=
  highlightAllNumbered g th initState (numberedSelection content startArg endArg)

/-- Concatenation of the text components of a span list. -/
def concatTexts (spans : List StyledSpan) : List Char :=
  (spans.map Prod.snd).flatten

/-- Modelled from the spec: section 4.1 — a registry entry: a grammar with the
name, file extensions and optional first-line marker it is indexed by. -/
structure GrammarDef where
  name : String
  extensions : List String
  firstLineMarker : Option String
  grammar : Grammar
  deriving DecidableEq

/-- Modelled from the spec: section 4.1 — extension lookup: the first registry
entry listing the extension, absent when none does. -/
def findByExtension (reg : List GrammarDef) (ext : String) : Option GrammarDef :=
  reg.find? (fun d => d.extensions.contains ext)

/-- Modelled from the spec: section 4.1 — first-line heuristic lookup (shebang
style): the first entry whose marker starts the line, absent when none does. -/
def findByFirstLine (reg : List GrammarDef) (line : String) : Option GrammarDef :=
  reg.find? (fun d =>
    match d.firstLineMarker with
    | none => false
    | some m => m.data.isPrefixOf line.data)

/-- Modelled from the spec: section 4.1 and main.rs lines 55-57 — lookup of a
grammar for a file: by extension first, then by first-line heuristic; an absent
value, never a failure, when neither matches. -/
def findGrammarForFile (reg : List GrammarDef) (ext firstLine : String) : Option GrammarDef :=
  (findByExtension reg ext).orElse (fun _ => findByFirstLine reg firstLine)

/-- Modelled from the spec: section 4.1 — the always-present fallback grammar:
one root context with no rules, classifying the entire input as
undifferentiated text. -/
def plainTextGrammar : Grammar := ⟨[[]]⟩

/-- Fallback applied at main.rs line 58: the grammar found for the file, else
the plain-text grammar. -/
def resolveGrammar (reg : List GrammarDef) (ext firstLine : String) : Grammar :=
  ((findGrammarForFile reg ext firstLine).map GrammarDef.grammar).getD plainTextGrammar

theorem tokenizeLine_text_flatten (g : Grammar) (st : ParseState) (rem : List Char) :
    (((tokenizeLine g st rem).1).map Token.text).flatten = rem := by
  induction st, rem using tokenizeLine.induct g with
  | case1 st => simp [tokenizeLine]
  | case2 st c rest hfind ih =>
    rw [tokenizeLine, hfind]
    simpa using ih
  | case3 st c rest r hfind hz ih =>
    rw [tokenizeLine, hfind]
    simp [hz]
    simpa using ih
  | case4 st c rest r hfind hz ih =>
    rw [tokenizeLine, hfind]
    simp [hz]
    rw [ih]
    exact List.take_append_drop _ _

theorem scope_mem_of_curContext (g : Grammar) (st : ParseState) (r : Rule)
    (h : r ∈ curContext g st) : r.scope ∈ grammarScopes g := by
  unfold grammarScopes
  cases st with
  | nil => simp [curContext] at h
  | cons i tl =>
    simp only [curContext] at h
    cases hg : g.contexts.get? i with
    | none => rw [hg] at h; simp at h
    | some ctx =>
      rw [hg] at h
      have hctx : ctx ∈ g.contexts := List.get?_mem hg
      exact List.mem_map_of_mem _ (List.mem_flatten.mpr ⟨ctx, hctx, h⟩)

theorem tokenizeLine_scopes (g : Grammar) (st : ParseState) (rem : List Char) :
    ∀ t ∈ (tokenizeLine g st rem).1, ∀ s ∈ t.scope, s ∈ grammarScopes g := by
  induction st, rem using tokenizeLine.induct g with
  | case1 st => simp [tokenizeLine]
  | case2 st c rest hfind ih =>
    rw [tokenizeLine, hfind]
    simpa using ih
  | case3 st c rest r hfind hz ih =>
    rw [tokenizeLine, hfind]
    simp only [hz]
    simpa using ih
  | case4 st c rest r hfind hz ih =>
    rw [tokenizeLine, hfind]
    simp only [dif_neg hz]
    intro t ht
    simp only [List.mem_cons] at ht
    rcases ht with rfl | ht
    · intro s hs
      simp only [List.mem_singleton] at hs
      subst hs
      have hr : r ∈ curContext g st := List.mem_of_find?_eq_some hfind
      exact scope_mem_of_curContext g st r hr
    · exact ih t ht

theorem concatTexts_mergeSpans (l : List StyledSpan) :
    concatTexts (mergeSpans l) = concatTexts l := by
  induction l using mergeSpans.induct with
  | case1 => rw [mergeSpans]
  | case2 s => rw [mergeSpans]
  | case3 a b rest heq ih =>
    rw [mergeSpans]
    simp only [if_pos heq]
    rw [ih]
    simp [concatTexts]
  | case4 a b rest hne ih =>
    rw [mergeSpans]
    simp only [if_neg hne]
    simp only [concatTexts, List.map_cons, List.flatten_cons] at ih ⊢
    rw [ih]

theorem mergeSpans_head_fst (l : List StyledSpan) :
    (mergeSpans l).head?.map Prod.fst = l.head?.map Prod.fst := by
  induction l using mergeSpans.induct with
  | case1 => rw [mergeSpans]
  | case2 s => rw [mergeSpans]
  | case3 a b rest heq ih =>
    rw [mergeSpans]
    simp only [if_pos heq]
    rw [ih]
    rfl
  | case4 a b rest hne ih =>
    rw [mergeSpans]
    simp only [if_neg hne]
    rfl

theorem mergeSpans_chain (l : List StyledSpan) :
    List.Chain' (fun x y : StyledSpan => x.1 ≠ y.1) (mergeSpans l) := by
  induction l using mergeSpans.induct with
  | case1 => simp [mergeSpans]
  | case2 s => simp [mergeSpans]
  | case3 a b rest heq ih =>
    rw [mergeSpans]
    simpa [if_pos heq] using ih
  | case4 a b rest hne ih =>
    rw [mergeSpans]
    simp only [if_neg hne]
    rw [List.chain'_cons']
    refine ⟨?_, ih⟩
    intro y hy
    rw [Option.mem_def] at hy
    have hh := mergeSpans_head_fst (b :: rest)
    rw [hy] at hh
    simp only [Option.map_some', List.head?_cons] at hh
    intro hcon
    injection hh with hh2
    rw [hcon, hh2] at hne
    exact hne rfl

theorem concatTexts_styledSpans (th : Theme) (toks : List Token) :
    concatTexts (styledSpans th toks) = (toks.map Token.text).flatten := by
  unfold styledSpans
  rw [concatTexts_mergeSpans]
  simp only [concatTexts, List.map_map]
  have hc : (Prod.snd ∘ fun t : Token => (resolveStyle th t.scope, t.text)) = Token.text := by
    funext t
    rfl
  rw [hc]

theorem highlightLineSpans_concat (g : Grammar) (th : Theme) (st : ParseState)
    (line : List Char) :
    concatTexts (highlightLineSpans g th st line).1 = line := by
  unfold highlightLineSpans
  rw [concatTexts_styledSpans]
  exact tokenizeLine_text_flatten g st line

/-- C1: concatenating the text components of all styled spans produced for an
input line reproduces the line exactly, character for character, line
terminator included. -/
theorem highlight_lossless (g : Grammar) (th : Theme) (st : ParseState) (line : List Char) :
    concatTexts (highlightLineSpans g th st line).1 = line :=
  highlightLineSpans_concat g th st line

/-- C7: the styled spans produced for a line never contain two adjacent spans
with an identical resolved style. -/
theorem highlight_no_adjacent_same_style (g : Grammar) (th : Theme) (st : ParseState)
    (line : List Char) :
    List.Chain' (fun x y : StyledSpan => x.1 ≠ y.1) (highlightLineSpans g th st line).1 :=
  mergeSpans_chain _

/-- C6: highlighting a line never fails: for every grammar, theme, carried state
and input line, highlight_line returns a success value, so the unwrap at its
call sites cannot panic. -/
theorem highlight_never_fails (g : Grammar) (th : Theme) (st : ParseState) (line : List Char) :
    ∃ out, highlightLineChecked g th st line = Except.ok out := by
  refine ⟨(styledSpans th (tokenizeLine g st line).1, (tokenizeLine g st line).2), ?_⟩
  unfold highlightLineChecked
  rw [if_pos]
  rw [List.all_eq_true]
  intro t ht
  rw [List.all_eq_true]
  intro s hs
  have := tokenizeLine_scopes g st line t ht s hs
  simpa using this

/-- C2: a requested range with start greater than end selects no lines at all,
for every file content, and the computation is total; this holds with and
without line numbers. -/
theorem range_start_gt_end_empty (content : List String) (s e : Nat) (h : e < s) :
    selectedLines content (some s) (some e) = []
    ∧ numberedSelection content (some s) (some e) = [] := by
  have hs : ¬ s = 0 := by omega
  have ht : e - wrapSub1 s = 0 := by
    unfold wrapSub1
    rw [if_neg hs]
    omega
  unfold selectedLines numberedSelection
  simp [ht]

theorem range_start_gt_end_empty_witness :
    (3 : Nat) < 5
    ∧ (selectedLines ["a", "b", "c", "d", "e", "f", "g", "h", "i", "j"] (some 5) (some 3) = []
       ∧ numberedSelection ["a", "b", "c", "d", "e", "f", "g", "h", "i", "j"]
           (some 5) (some 3) = []) :=
  ⟨by decide, range_start_gt_end_empty _ 5 3 (by decide)⟩

/-- C3: an end bound past the file length is clamped to the file length: the
selection is exactly the suffix of the file from the start line on, in order,
with and without line numbers. -/
theorem range_end_clamped (content : List String) (s e : Nat)
    (hs : 1 ≤ s) (he : content.length ≤ e) :
    selectedLines content (some s) (some e) = content.drop (s - 1)
    ∧ numberedSelection content (some s) (some e) = content.enum.drop (s - 1) := by
  have hs0 : ¬ s = 0 := by omega
  have hw : wrapSub1 s = s - 1 := by
    unfold wrapSub1
    rw [if_neg hs0]
  unfold selectedLines numberedSelection
  simp only [Option.getD_some]
  rw [hw]
  constructor
  · apply List.take_of_length_le
    rw [List.length_drop]
    omega
  · apply List.take_of_length_le
    rw [List.length_drop, List.enum_length]
    omega

theorem range_end_clamped_witness :
    ((1 : Nat) ≤ 8 ∧ (10 : Nat) ≤ 100)
    ∧ (selectedLines ["l1", "l2", "l3", "l4", "l5", "l6", "l7", "l8", "l9", "l10"]
         (some 8) (some 100)
         = List.drop (8 - 1) ["l1", "l2", "l3", "l4", "l5", "l6", "l7", "l8", "l9", "l10"]
       ∧ numberedSelection ["l1", "l2", "l3", "l4", "l5", "l6", "l7", "l8", "l9", "l10"]
           (some 8) (some 100)
           = List.drop (8 - 1)
               (List.enum ["l1", "l2", "l3", "l4", "l5", "l6", "l7", "l8", "l9", "l10"])) :=
  ⟨⟨by decide, by decide⟩,
   range_end_clamped ["l1", "l2", "l3", "l4", "l5", "l6", "l7", "l8", "l9", "l10"] 8 100
     (by decide) (by decide)⟩

/-- C4 (refuted): start_line = 0 is not clamped to 1.  In a release build the
wrapping start - 1 makes the take count zero, so start 0 selects nothing while
start 1 selects the whole file (a debug build panics on the underflow
instead). -/
theorem start_zero_not_clamped :
    selectedLines ["a", "b"] (some 0) none = []
    ∧ selectedLines ["a", "b"] (some 1) none = ["a", "b"]
    ∧ selectedLines ["a", "b"] (some 0) none ≠ selectedLines ["a", "b"] (some 1) none := by
  refine ⟨by decide, ?_, ?_⟩ <;> decide

/-- C8: the highlighter is always created with the one fixed theme name
"base16-ocean.dark"; the theme does not depend on any command-line argument. -/
theorem theme_is_fixed_constant :
    (∀ args : Args, chosenTheme args = "base16-ocean.dark")
    ∧ ∀ a b : Args, chosenTheme a = chosenTheme b :=
  ⟨fun _ => rfl, fun _ _ => rfl⟩

theorem highlightAll_concat (g : Grammar) (th : Theme) (st : ParseState) (ls : List String) :
    (highlightAll g th st ls).map concatTexts = ls.map String.data := by
  induction ls generalizing st with
  | nil => rfl
  | cons l rest ih =>
    simp only [highlightAll, List.map_cons]
    rw [highlightLineSpans_concat, ih]

theorem highlightAllNumbered_pairs (g : Grammar) (th : Theme) (st : ParseState)
    (xs : List (Nat × String)) :
    (highlightAllNumbered g th st xs).map (fun p => (p.1, concatTexts p.2))
      = xs.map (fun p => (p.1, p.2.data)) := by
  induction xs generalizing st with
  | nil => rfl
  | cons x rest ih =>
    obtain ⟨n, l⟩ := x
    simp only [highlightAllNumbered, List.map_cons]
    rw [highlightLineSpans_concat, ih]

theorem highlightAllNumbered_fst (g : Grammar) (th : Theme) (st : ParseState)
    (xs : List (Nat × String)) :
    (highlightAllNumbered g th st xs).map Prod.fst = xs.map Prod.fst := by
  induction xs generalizing st with
  | nil => rfl
  | cons x rest ih =>
    obtain ⟨n, l⟩ := x
    simp only [highlightAllNumbered, List.map_cons]
    rw [ih]

/-- C10: for every file content and range, plain mode and highlighted mode emit
the same source lines in the same order, with and without line numbers: mapping
each highlighted span list back to its text gives exactly the plain-mode
selection. -/
theorem modes_emit_same_lines (g : Grammar) (th : Theme) (content : List String)
    (startArg endArg : Option Nat) :
    (highlightedOutput g th content startArg endArg).map concatTexts
      = (selectedLines content startArg endArg).map String.data
    ∧ (highlightedNumberedOutput g th content startArg endArg).map
        (fun p => (p.1, concatTexts p.2))
      = (numberedSelection content startArg endArg).map (fun p => (p.1, p.2.data)) :=
  ⟨highlightAll_concat g th initState _, highlightAllNumbered_pairs g th initState _⟩

/-- C9: with line numbers enabled and a start line s greater than 1, every
printed pair carries the line's original position: the printed prefix (stored
index plus one) equals s plus the pair's offset in the output, the stored index
addresses exactly that line in the file, and highlighted mode prints the same
numbers as plain mode. -/
theorem numbered_prefix_is_original_position (g : Grammar) (th : Theme)
    (content : List String) (endArg : Option Nat) (s i : Nat) (p : Nat × String)
    (hs : 1 < s)
    (hp : (numberedSelection content (some s) endArg)[i]? = some p) :
    p.1 + 1 = s + i
    ∧ content[p.1]? = some p.2
    ∧ (highlightedNumberedOutput g th content (some s) endArg).map Prod.fst
        = (numberedSelection content (some s) endArg).map Prod.fst := by
  have hs0 : ¬ s = 0 := by omega
  have hw : wrapSub1 s = s - 1 := by
    unfold wrapSub1
    rw [if_neg hs0]
  have heq : numberedSelection content (some s) endArg
      = (content.enum.drop (s - 1)).take ((endArg.getD USIZE_MAX) - (s - 1)) := by
    unfold numberedSelection
    simp only [Option.getD_some]
    rw [hw]
  rw [heq] at hp
  obtain ⟨hlt, hget⟩ := List.getElem?_eq_some_iff.mp hp
  have hlt' := hlt
  simp only [List.length_take, lt_min_iff] at hlt'
  have hlt2 : i < (content.enum.drop (s - 1)).length := hlt'.2
  have hi2 : s - 1 + i < content.length := by
    rw [List.length_drop, List.enum_length] at hlt2
    omega
  rw [List.getElem_take, List.getElem_drop, List.getElem_enum] at hget
  subst hget
  refine ⟨by omega, ?_, ?_⟩
  · exact List.getElem?_eq_getElem hi2
  · unfold highlightedNumberedOutput
    exact highlightAllNumbered_fst g th initState _

theorem numbered_prefix_witness :
    ((1 : Nat) < 2
     ∧ (numberedSelection ["a\n", "b\n", "c\n"] (some 2) (some 3))[0]? = some (1, "b\n"))
    ∧ ((1 : Nat) + 1 = 2 + 0
       ∧ ["a\n", "b\n", "c\n"][(1 : Nat)]? = some "b\n"
       ∧ (highlightedNumberedOutput plainTextGrammar ⟨[], ⟨0, 0, 0⟩⟩ ["a\n", "b\n", "c\n"]
            (some 2) (some 3)).map Prod.fst
          = (numberedSelection ["a\n", "b\n", "c\n"] (some 2) (some 3)).map Prod.fst) :=
  ⟨⟨by decide, by decide⟩,
   numbered_prefix_is_original_position plainTextGrammar ⟨[], ⟨0, 0, 0⟩⟩
     ["a\n", "b\n", "c\n"] (some 3) 2 0 (1, "b\n") (by decide) (by decide)⟩

/-- C5: grammar lookup is total: when no registry entry lists the file's
extension and no entry's first-line marker matches, the lookup yields the
absent value (never an error) and the resolved grammar is deterministically the
plain-text fallback. -/
theorem lookup_miss_falls_back_to_plain_text (reg : List GrammarDef) (ext firstLine : String)
    (hext : ∀ d ∈ reg, ext ∉ d.extensions)
    (hfl : ∀ d ∈ reg, ∀ m, d.firstLineMarker = some m → m.data.isPrefixOf firstLine.data = false) :
    findGrammarForFile reg ext firstLine = none
    ∧ resolveGrammar reg ext firstLine = plainTextGrammar := by
  have h1 : findByExtension reg ext = none := by
    unfold findByExtension
    rw [List.find?_eq_none]
    intro d hd
    have := hext d hd
    simpa using this
  have h2 : findByFirstLine reg firstLine = none := by
    unfold findByFirstLine
    rw [List.find?_eq_none]
    intro d hd
    cases hm : d.firstLineMarker with
    | none => simp
    | some m =>
      have := hfl d hd m hm
      simp [this]
  have h3 : findGrammarForFile reg ext firstLine = none := by
    unfold findGrammarForFile
    rw [h1, h2]
    rfl
  refine ⟨h3, ?_⟩
  unfold resolveGrammar
  rw [h3]
  rfl

theorem lookup_miss_witness :
    ((∀ d ∈ [GrammarDef.mk "rust" ["rs"] (some "#!") plainTextGrammar],
        "xyz" ∉ d.extensions)
     ∧ (∀ d ∈ [GrammarDef.mk "rust" ["rs"] (some "#!") plainTextGrammar],
         ∀ m, d.firstLineMarker = some m → m.data.isPrefixOf "hello world".data = false))
    ∧ (findGrammarForFile [GrammarDef.mk "rust" ["rs"] (some "#!") plainTextGrammar]
         "xyz" "hello world" = none
       ∧ resolveGrammar [GrammarDef.mk "rust" ["rs"] (some "#!") plainTextGrammar]
           "xyz" "hello world" = plainTextGrammar) :=
  ⟨⟨by decide, by decide⟩,
   lookup_miss_falls_back_to_plain_text
     [GrammarDef.mk "rust" ["rs"] (some "#!") plainTextGrammar]
     "xyz" "hello world" (by decide) (by decide)⟩
